import Mathlib

/-!
Verification development for the SuperCouch sorted-set subsystem.

This file shallowly embeds the parts of the code base that the verified
properties are about:

  * a model of JSON/JavaScript values (`JSValue`) as they flow through the
    query-server engine and the client-side interceptor;
  * a model of the Redis sorted-set commands that `SSetRedis` issues
    (`zAddGT`, `zRemRangeByRank`, `zRange`, `zCount`) over an explicit
    backend state;
  * the batch writer `SSetRedis.process` (grouping, validation, multi
    building) from `supercouch.sset.redis/src/sset.redis.ts`;
  * the range reader `SSetRedis.rangeBy` from the same file;
  * the view-request classifier `getQueryType` and the query translators
    `processKeysQuery` / `processRangeQuery` of the nano interceptor;
  * the emission pipeline of the query-server engine
    (`global.emit`, the `$SSET` extraction in `mapDoc`, the scratch buffer
    lifecycle, `reset`) from `src/supercouch.ts`.

Modelling conventions, used throughout:

  * JavaScript numbers are modelled as integers (`Int`).  The embedded code
    only ever compares scores and counts; it never does float arithmetic on
    them, so any linearly ordered carrier is faithful for these properties.
  * `undefined` and `null` are conflated into `JSValue.null`; both are falsy
    and neither is a string or a number, which is all the embedded code
    observes about them (the one known divergence, `typeof undefined`,
    is noted at its use site).
  * JSON-encoded values (`JSON.stringify(op.value)`) are carried as the
    already-encoded `String`; encoding is injective on the encoded form, so
    `JSON.parse`/`JSON.stringify` round-trips are the identity here.
  * Numeric property access on plain (non-array) objects is modelled as
    `undefined`: the interceptor and engine only index arrays and strings on
    the inputs these properties quantify over.
-/

namespace SuperCouch

/-- A JSON/JavaScript value as handled by the engine and the interceptor. -/
inductive JSValue where
  | null
  | bool (b : Bool)
  | num (n : Int)
  | str (s : String)
  | arr (elems : List JSValue)
  | obj (fields : List (String × JSValue))

/-- JavaScript truthiness of a value (`if (v)`). -/
def truthy : JSValue → Bool
  | .null => false
  | .bool b => b
  | .num n => !(n == 0)
  | .str s => !(s == "")
  | .arr _ => true
  | .obj _ => true

/-- Whether the value is a string (`typeof v === 'string'`). -/
def JSValue.isStr : JSValue → Bool
  | .str _ => true
  | _ => false

/-- Whether the value is a number (`typeof v === 'number'`). -/
def JSValue.isNum : JSValue → Bool
  | .num _ => true
  | _ => false

/-- Whether `typeof v === 'object'`; in JavaScript this holds for plain
objects, arrays and `null`. -/
def jsTypeofObject : JSValue → Bool
  | .null => true
  | .arr _ => true
  | .obj _ => true
  | _ => false

/-- Property lookup `v[name]` for string-named properties; `undefined`
(modelled `.null`) when absent or when `v` is not an object. -/
def jsGet (v : JSValue) (name : String) : JSValue :=
  match v with
  | .obj fields => (fields.lookup name).getD .null
  | _ => .null

/-- Indexing `v[i]`: array element or one-character string slice,
`undefined` (modelled `.null`) when out of range or not indexable. -/
def jsIndex (v : JSValue) (i : Int) : JSValue :=
  match v with
  | .arr xs => if 0 ≤ i ∧ i < (xs.length : Int) then xs.getD i.toNat .null else .null
  | .str s => if 0 ≤ i ∧ i < (s.length : Int) then .str (String.mk [s.toList.getD i.toNat (Char.ofNat 32)]) else .null
  | _ => .null

/-- The raw `v.length` property: a number for arrays and strings, the
`length` field for plain objects, `undefined` (modelled `.null`) otherwise. -/
def jsLengthVal : JSValue → JSValue
  | .arr xs => .num xs.length
  | .str s => .num s.length
  | .obj fields => (fields.lookup "length").getD .null
  | _ => .null

/-- `v.length` as a number when it is one. -/
def jsLength (v : JSValue) : Option Int :=
  match jsLengthVal v with
  | .num n => some n
  | _ => none

/-- Strict equality `a === b` restricted to the cases the classifier can
meet: structural on primitives, `false` across objects and arrays (two
separately supplied object values are distinct references). -/
def jsStrictEq : JSValue → JSValue → Bool
  | .null, .null => true
  | .bool a, .bool b => a == b
  | .num a, .num b => a == b
  | .str a, .str b => a == b
  | _, _ => false

/-- Strict comparison of a value against a string literal (`v === "lit"`). -/
def strictEqStr (v : JSValue) (lit : String) : Bool :=
  match v with
  | .str s => s == lit
  | _ => false

/-- JavaScript `a || b`. -/
def jsOr (a b : JSValue) : JSValue := if truthy a then a else b

/-- Cast of a value already known to be a string (the `as string` coercions
of the interceptor); only applied under guards that ensure the value is a
string. -/
def asString : JSValue → String
  | .str s => s
  | _ => ""

/-- Cast of a value already known to be a number. -/
def asNum : JSValue → Int
  | .num n => n
  | _ => 0

/-- String conversion used by `Array.prototype.join` on key components
(the keys joined by the interceptor are strings in every reachable call). -/
def jsToStr : JSValue → String
  | .str s => s
  | .num n => toString n
  | .bool b => toString b
  | _ => ""

/-!
## Redis sorted-set backend model

A sorted set is a duplicate-free list of `(score, member)` pairs kept in
Redis order: ascending score, ties broken by the byte order of the member.
Members are the JSON-encoded values (`JSON.stringify(op.value)`), carried
as strings.  The backend state maps Redis keys to sorted sets.
-/

/-- One sorted set: `(score, member)` pairs in Redis order. -/
abbrev SSet := List (Int × String)

/-- Redis ordering on entries: ascending score, ties by member byte order. -/
def entryLt (a b : Int × String) : Bool :=
  decide (a.1 < b.1) || (a.1 == b.1 && decide (a.2 < b.2))

/-- Ordered insertion of an entry. -/
def insertEntry (e : Int × String) : SSet → SSet
  | [] => [e]
  | x :: xs => if entryLt e x then e :: x :: xs else x :: insertEntry e xs

/-- `ZADD key GT score member`: add the member if new; if it exists,
update its score only when the new score is strictly greater. -/
def zAddGT (s : SSet) (score : Int) (member : String) : SSet :=
  match s.find? (fun e => e.2 == member) with
  | some e =>
    if e.1 < score then insertEntry (score, member) (s.filter (fun x => !(x.2 == member)))
    else s
  | none => insertEntry (score, member) s

/-- `ZREMRANGEBYRANK key start stop`: remove the entries whose rank lies in
the inclusive range, negative ranks counting from the end. -/
def zRemRangeByRank (s : SSet) (start stop : Int) : SSet :=
  let n : Int := s.length
  let lo : Int := if start < 0 then max (n + start) 0 else start
  let hi : Int := if stop < 0 then n + stop else min stop (n - 1)
  s.enum.filterMap (fun p => if lo ≤ (p.1 : Int) ∧ (p.1 : Int) ≤ hi then none else some p.2)

/-- `ZCOUNT key min max` (inclusive bounds). -/
def zCount (s : SSet) (min max : Int) : Int :=
  (s.filter (fun e => decide (min ≤ e.1) && decide (e.1 ≤ max))).length

/-- `ZRANGE` as issued by `SSetRedis.rangeBy`: by rank (with negative
indices counting from the end) or `BYSCORE`, optionally `REV` (only ever
combined with `BYSCORE`, with the bounds already swapped by the caller),
optionally with a `LIMIT (offset, count)` applied to the result (a negative
count meaning "all remaining"). -/
def zRangeEntries (s : SSet) (byScore : Bool) (a b : Int) (rev : Bool)
    (limit : Option (Int × Int)) : SSet :=
  let base : SSet :=
    if byScore then
      if rev then (s.filter (fun e => decide (b ≤ e.1) && decide (e.1 ≤ a))).reverse
      else s.filter (fun e => decide (a ≤ e.1) && decide (e.1 ≤ b))
    else
      let n : Int := s.length
      let lo : Int := if a < 0 then n + a else a
      let hi : Int := if b < 0 then n + b else b
      s.enum.filterMap (fun p => if lo ≤ (p.1 : Int) ∧ (p.1 : Int) ≤ hi then some p.2 else none)
  match limit with
  | none => base
  | some (off, cnt) =>
    let rest := base.drop off.toNat
    if cnt < 0 then rest else rest.take cnt.toNat

/-- The whole backend: one sorted set per Redis key. -/
def RedisState := String → SSet

/-- The empty backend. -/
def emptyRedis : RedisState := fun _ => []

/-- Point update of the backend at one key. -/
def setKey (st : RedisState) (k : String) (s : SSet) : RedisState :=
  fun k' => if k' = k then s else st k'

/-- The write commands `SSetRedis.process` enqueues into a multi. -/
inductive RedisCmd where
  | zAddGT (key : String) (score : Int) (member : String)
  | zRemRangeByRank (key : String) (start stop : Int)
  deriving DecidableEq

/-- Effect of one command on the backend. -/
def execCmd (st : RedisState) : RedisCmd → RedisState
  | .zAddGT k sc v => setKey st k (zAddGT (st k) sc v)
  | .zRemRangeByRank k a b => setKey st k (zRemRangeByRank (st k) a b)

/-- Effect of one committed transaction (commands in submission order). -/
def execCmds (cmds : List RedisCmd) (st : RedisState) : RedisState :=
  cmds.foldl execCmd st

/-- Effect of a list of committed transactions. -/
def execTxs (txs : List (List RedisCmd)) (st : RedisState) : RedisState :=
  txs.foldl (fun s tx => execCmds tx s) st

/-!
## Key shaping (`SSetRedis.key`)
-/

/-- Characters `encodeURIComponent` leaves as-is. -/
def isUnreservedURIChar (c : Char) : Bool :=
  c.isAlphanum || c == Char.ofNat 45 || c == Char.ofNat 95 || c == Char.ofNat 46 ||
  c == Char.ofNat 33 || c == Char.ofNat 126 || c == Char.ofNat 42 ||
  c == Char.ofNat 40 || c == Char.ofNat 41 || c == Char.ofNat 39

/-- Uppercase hexadecimal digit. -/
def hexDigit (n : Nat) : Char :=
  if n < 10 then Char.ofNat (48 + n) else Char.ofNat (55 + n)

/-- Percent-encoding of one byte. -/
def percentByte (b : UInt8) : String :=
  String.mk [Char.ofNat 37, hexDigit (b.toNat / 16), hexDigit (b.toNat % 16)]

/-- JavaScript `encodeURIComponent`: unreserved characters pass through,
everything else is percent-encoded byte-wise from its UTF-8 form. -/
def encodeURIComponent (s : String) : String :=
  String.join (s.toList.map (fun c =>
    if isUnreservedURIChar c then String.mk [c]
    else String.join ((String.mk [c]).toUTF8.toList.map percentByte)))

namespace SSetRedis

/-- `SSetRedis.key`: `'{SSET:' + db + '}/' + id.map(encodeURIComponent).join(':')`.
The braces form a Redis cluster hash tag. -/
def key (db : String) (id : List String) : String :=
  "\x7bSSET:" ++ db ++ "\x7d/" ++ String.intercalate ":" (id.map encodeURIComponent)

end SSetRedis

/-!
## `SSetRedis.process`

From `supercouch.sset.redis/src/sset.redis.ts`.  The writer first validates
every operation, then builds one multi per distinct `db` (in first-occurrence
order, like `Object.keys` on the insertion-ordered `groups` object) and
executes the multis.  Commands of a multi are queued client-side and only
sent on `exec()`, so a validation or build error means nothing reaches the
backend.  Note that the inner loop of the source iterates `ops` — the whole
batch — not `groups[db]`, and the embedding reproduces that.
-/

/-- A sorted-set write operation.  `keep` is typed `SSetKeepOption` in the
source but is an arbitrary runtime value fed from user emissions; here it is
the string the engine received, `""` standing for a missing/falsy one. -/
structure SSetOp (T : Type) where
  db : String
  keep : String
  id : List String
  score : Int
  value : T
  deriving DecidableEq

/-- The validation loop at the top of `process`:
`if (!op.id || !op.id.length || !op.keep) throw`. -/
def validateOps : List (SSetOp String) → Except String Unit
  | [] => .ok ()
  | op :: rest =>
    if op.id.isEmpty || op.keep == "" then
      .error ("Invalid $SSET operation for " ++ op.db)
    else validateOps rest

/-- The distinct databases of a batch in first-occurrence order
(`Object.keys(groups)`). -/
def groupDbs (ops : List (SSetOp String)) : List String :=
  ops.foldl (fun acc op => if acc.contains op.db then acc else acc ++ [op.db]) []

/-- Building one multi.  The source iterates the whole batch `ops` (not the
group): per operation it queues `zAdd … GT`, then for `LAST_VALUE` also
`zRemRangeByRank 0 -2`; an unrecognized `keep` throws, discarding the
never-executed queued commands. -/
def buildMulti : List (SSetOp String) → Except String (List RedisCmd)
  | [] => .ok []
  | op :: rest =>
    let k := SSetRedis.key op.db op.id
    if op.keep == "ALL_VALUES" then
      (buildMulti rest).map (fun cs => RedisCmd.zAddGT k op.score op.value :: cs)
    else if op.keep == "LAST_VALUE" then
      (buildMulti rest).map (fun cs =>
        RedisCmd.zAddGT k op.score op.value :: RedisCmd.zRemRangeByRank k 0 (-2) :: cs)
    else
      .error ("Unsupported value for $SSET \"keep\" field: " ++ op.keep)

/-- One multi per group; the body ignores the group's own operations and
rebuilds from the whole batch, exactly as the source does. -/
def mapGroups (ops : List (SSetOp String)) : List String → Except String (List (List RedisCmd))
  | [] => .ok []
  | _ :: rest => do
    let tx ← buildMulti ops
    let txs ← mapGroups ops rest
    .ok (tx :: txs)

namespace SSetRedis

/-- `SSetRedis.process(ops)`: validation, grouping, one multi per group.
Returns the per-group transactions that reach `exec()`, or the thrown
error (in which case no command was sent to the backend). -/
def process (ops : List (SSetOp String)) : Except String (List (List RedisCmd)) :=
  match validateOps ops with
  | .error e => .error e
  | .ok _ => mapGroups ops (groupDbs ops)

end SSetRedis

/-- Backend effect of one `process` call: the transactions commit when the
call succeeds; a thrown error leaves the backend untouched (the multis were
never executed). -/
def applyBatch (ops : List (SSetOp String)) (st : RedisState) : RedisState :=
  match SSetRedis.process ops with
  | .ok txs => execTxs txs st
  | .error _ => st

/-- Backend effect of a sequence of `process` calls, from the empty backend. -/
def applyBatches (batches : List (List (SSetOp String))) : RedisState :=
  batches.foldl (fun st b => applyBatch b st) emptyRedis

/-!
## `SSetRedis.rangeBy`
-/

/-- `SSetRangeQuery` (from `supercouch.sset/src/sset.db.ts`): optional
fields are `Option`s; `includeTotal` is used only for truthiness. -/
structure SSetRangeQuery where
  min : Int
  max : Int
  offset : Option Int := none
  count : Option Int := none
  order : Option String := none
  includeTotal : Bool := false
  includeScores : Option Bool := none

/-- Paging block of a range response. -/
structure SSetPaging where
  offset : Int
  count : Int
  total : Int
  deriving DecidableEq

/-- One row of a range response: the decoded value (carried in encoded
form) and, when requested, its score. -/
structure SSetRow where
  value : String
  score : Option Int
  deriving DecidableEq

/-- `SSetRangeResponse`. -/
structure SSetRangeResponse where
  paging : SSetPaging
  rows : List SSetRow
  deriving DecidableEq

namespace SSetRedis

/-- `SSetRedis.rangeBy` from `sset.redis.ts`: bound swapping and `REV` for
descending score queries, `LIMIT` exactly when `offset` or `count` is a
number, `zCount` only when a total is requested *and* paging is present,
row-count fallback for `total` otherwise. -/
def rangeBy (byScore : Bool) (db : String) (id : List String)
    (query : SSetRangeQuery) (st : RedisState) : SSetRangeResponse :=
  let k := key db id
  let isReversed := (query.order == some "desc") && byScore
  let a := if isReversed then query.max else query.min
  let b := if isReversed then query.min else query.max
  let hasOffsetOrCount := query.offset.isSome || query.count.isSome
  let limit : Option (Int × Int) :=
    if hasOffsetOrCount then some (query.offset.getD 0, query.count.getD 9999999999) else none
  let entries := zRangeEntries (st k) byScore a b isReversed limit
  let values : List SSetRow :=
    if query.includeScores.getD false then entries.map (fun e => ⟨e.2, some e.1⟩)
    else entries.map (fun e => ⟨e.2, none⟩)
  let total : Int :=
    if query.includeTotal && hasOffsetOrCount then zCount (st k) query.min query.max else -1
  { paging :=
      { count := if hasOffsetOrCount then query.count.getD 9999999999 else -1
        offset := if hasOffsetOrCount then query.offset.getD 0 else 0
        total := if hasOffsetOrCount then total else values.length }
    rows := values }

/-- `rangeByScore`. -/
def rangeByScore (db : String) (id : List String) (query : SSetRangeQuery)
    (st : RedisState) : SSetRangeResponse :=
  rangeBy true db id query st

/-- `rangeByIndex`. -/
def rangeByIndex (db : String) (id : List String) (query : SSetRangeQuery)
    (st : RedisState) : SSetRangeResponse :=
  rangeBy false db id query st

end SSetRedis

/-!
## Client-side view interceptor

From the current nano interceptor (`getQueryType`, `processKeysQuery`,
`processRangeQuery`).
-/

/-- Result of classification (`null` is `Option.none`). -/
inductive QueryType where
  | keys
  | range
  deriving DecidableEq

/-- The view parameters the classifier inspects.  Absent fields are
`undefined`, modelled as `.null` (falsy). -/
structure ViewParams where
  keys : JSValue := .null
  start_key : JSValue := .null
  startkey : JSValue := .null
  end_key : JSValue := .null
  endkey : JSValue := .null

/-- The last element `k[k.length - 1]` as the classifier computes it. -/
def lastElemJS (k : JSValue) : JSValue :=
  match jsLength k with
  | some n => jsIndex k (n - 1)
  | none => .null

/-- The classifier's prefix loop:
`for (i = 0; i < startKey.length - 1; ++i) if (startKey[i] !== endKey[i]) return null`. -/
def prefixStrictEq (s e : JSValue) (n : Int) : Bool :=
  (List.range (n - 1).toNat).all (fun i => jsStrictEq (jsIndex s (i : Int)) (jsIndex e (i : Int)))

/-- `getQueryType` of the interceptor: keys queries are recognized first,
then range queries, else pass-through (`none`). -/
def getQueryType (qs : ViewParams) : Option QueryType :=
  if truthy qs.keys && truthy (jsIndex qs.keys 0) &&
      strictEqStr (jsIndex (jsIndex qs.keys 0) 0) "$SSET" then
    some .keys
  else
    let startKey := jsOr qs.start_key qs.startkey
    let endKey := jsOr qs.end_key qs.endkey
    if truthy startKey && strictEqStr (jsIndex startKey 0) "$SSET" && truthy endKey then
      if jsLength startKey ≠ jsLength endKey then none
      else if !(lastElemJS startKey).isNum then none
      else if !(lastElemJS endKey).isNum then none
      else if prefixStrictEq startKey endKey ((jsLength startKey).getD 0) then some .range
      else none
    else none

/-- The keys-query condition, written from the spec sentence: `params.keys`
is present and its first element is an array beginning with `"$SSET"`. -/
def specKeysQueryShape (qs : ViewParams) : Bool :=
  truthy qs.keys && truthy (jsIndex qs.keys 0) &&
    strictEqStr (jsIndex (jsIndex qs.keys 0) 0) "$SSET"

/-- The range-query condition, written from the spec sentence: both a start
key (`start_key`/`startkey`) and an end key exist, both begin with
`"$SSET"`, they have equal length, the last element of each is a number,
and every element before the last is pairwise equal. -/
def specRangeQueryShape (qs : ViewParams) : Bool :=
  let s := jsOr qs.start_key qs.startkey
  let e := jsOr qs.end_key qs.endkey
  truthy s && truthy e &&
  strictEqStr (jsIndex s 0) "$SSET" && strictEqStr (jsIndex e 0) "$SSET" &&
  (jsLength s == jsLength e) &&
  (lastElemJS s).isNum && (lastElemJS e).isNum &&
  prefixStrictEq s e ((jsLength s).getD 0)

/-- The interceptor's resolved options
(`include_scores ?? true`, `include_total_rows ?? true`). -/
structure QueryOptions where
  withScores : Bool
  withTotalRows : Bool

/-- One row of the view response the interceptor fabricates. -/
structure ViewRow where
  id : String
  key : String
  value : String
  score : Option Int
  deriving DecidableEq

/-- The view response shape (`offset`, `total_rows`, `rows`). -/
structure ViewResponse where
  offset : Int
  total_rows : Int
  rows : List ViewRow
  deriving DecidableEq

/-- Row assembly of `processKeysQuery`: `const row = result.rows[0];
… value: row.value, score: row.score`.  When a key's result has no rows,
`row` is `undefined` and the property access throws. -/
def buildKeysRows : List (List JSValue × SSetRangeResponse) → Except String (List ViewRow)
  | [] => .ok []
  | (k, result) :: rest =>
    match result.rows.head? with
    | none => .error "TypeError: Cannot read properties of undefined (reading 'value')"
    | some row =>
      (buildKeysRows rest).map (fun rs =>
        { id := "#SSET", key := String.intercalate "," (k.map jsToStr),
          value := row.value, score := row.score } :: rs)

/-- `processKeysQuery`: one `rangeByIndex(db, id, {min:-1, max:-1,
includeScores, includeTotal:false})` per key, then row assembly.  The
sorted-set service is abstracted as the function `svc`. -/
def processKeysQuery (svc : String → List String → SSetRangeQuery → SSetRangeResponse)
    (keys : List (List JSValue)) (options : QueryOptions) : Except String ViewResponse :=
  let results := keys.map (fun k =>
    svc (asString (k.getD 1 .null)) ((k.drop 2).map asString)
      { min := -1, max := -1, includeScores := some options.withScores, includeTotal := false })
  match buildKeysRows (keys.zip results) with
  | .error e => .error e
  | .ok rows => .ok { offset := 0, total_rows := keys.length, rows := rows }

/-- `processRangeQuery`: `db = startKey[1]`, `id = startKey.slice(2, -1)`,
`min`/`max` from the last elements of start and end key, then one
`rangeByScore` call whose paging is mirrored into the response. -/
def processRangeQuery (svc : String → List String → SSetRangeQuery → SSetRangeResponse)
    (startKey endKey : List JSValue) (options : QueryOptions)
    (skip limit : Option Int) (descending : Bool) : ViewResponse :=
  let db := asString (startKey.getD 1 .null)
  let id := ((startKey.drop 2).dropLast).map asString
  let k := String.intercalate "," ("#SSET" :: asString (startKey.getD 1 .null) :: ((startKey.drop 2).dropLast).map jsToStr)
  let mn := asNum ((startKey.getLast?).getD .null)
  let mx := asNum ((endKey.getLast?).getD .null)
  let result := svc db id
    { min := mn, max := mx, offset := skip, count := limit,
      order := some (if descending then "desc" else "asc"),
      includeTotal := options.withTotalRows, includeScores := some options.withScores }
  { offset := result.paging.offset
    total_rows := result.paging.total
    rows := result.rows.map (fun r => { id := "#SSET", key := k, value := r.value, score := r.score }) }

/-!
## Query-server engine (`src/supercouch.ts`)

The scratch emission buffer, the `emit` normalization, the `$SSET`
extraction of `mapDoc`, the per-document loop of the `map_doc` command and
the `reset` command.
-/

/-- One record of the scratch buffer: the `[key, value]` pair `emit` pushed. -/
abbrev Emission := JSValue × JSValue

/-- The operation `mapDoc` queues for the sorted-set service.  `db`, `keep`
and `value` are whatever JavaScript values the emission carried (the source
merely casts them). -/
structure EngineOp where
  keep : JSValue
  db : JSValue
  id : List JSValue
  score : Int
  value : JSValue

/-- Engine configuration relevant here: the `--emit-sset` flag. -/
structure EngineConfig where
  emitSSet : Bool

/-- A compiled map function, modelled by its observable effect on one
document: the records its `emit` calls append to the scratch buffer (in
order, each already normalized by `global.emit`), and whether it then
throws. -/
def MapFn := JSValue → List Emission × Bool

/-- Mutable engine state: the scratch buffer, the registered functions and
the query-server state object. -/
structure Engine where
  emits : List Emission
  mapFunctions : List MapFn
  qsState : JSValue

/-- `global.emit(key, value)`: null/undefined keys pass as `null`, string
and number keys are wrapped into a one-element array (numbers via `'' +
key`), array-like keys with truthy `length` pass as-is, and any other key
appends nothing. -/
def jsEmit (key value : JSValue) : Option Emission :=
  match key with
  | .null => some (.null, value)
  | .str s => some (.arr [.str s], value)
  | .num n => some (.arr [.str (toString n)], value)
  | k => if truthy (jsLengthVal k) then some (k, value) else none

/-- Effect of one `emit` call on the engine. -/
def emitPush (eng : Engine) (key value : JSValue) : Engine :=
  match jsEmit key value with
  | some e => { eng with emits := eng.emits ++ [e] }
  | none => eng

/-- The `$SSET` inspection of one buffered emission inside `mapDoc`:
returns whether the record is passed through to the view (`shouldEmit`) and
the operation queued for the service, if any; a `null` emission value that
reaches the destructuring throws. -/
def extractEmit (cfg : EngineConfig) (kv : Emission) : Except String (Bool × Option EngineOp) :=
  match kv.1 with
  | .arr xs =>
    if 3 ≤ xs.length ∧ (xs.getD 0 .null).isStr = true then
      if strictEqStr (xs.getD 0 .null) "$SSET" ∧ jsTypeofObject kv.2 = true then
        match kv.2 with
        | .null => .error "TypeError: Cannot destructure property of null"
        | v =>
          if truthy (jsGet v "keep") ∧ truthy (xs.getD 1 .null) ∧ (jsGet v "score").isNum = true then
            .ok (cfg.emitSSet,
              some { keep := jsGet v "keep", db := xs.getD 1 .null, id := xs.drop 2,
                     score := asNum (jsGet v "score"), value := jsGet v "value" })
          else .ok (true, none)
      else .ok (true, none)
    else .ok (true, none)
  | _ => .ok (true, none)

/-- The `emits.forEach` loop of `mapDoc`: collects the passed-through view
rows and the extracted operations, in buffer order; the first thrown
`TypeError` aborts the loop. -/
def extractEmits (cfg : EngineConfig) : List Emission → Except String (List Emission × List EngineOp)
  | [] => .ok ([], [])
  | kv :: rest => do
    let (shouldEmit, opt) ← extractEmit cfg kv
    let (ret, ops) ← extractEmits cfg rest
    .ok ((if shouldEmit then kv :: ret else ret),
         (match opt with | some op => op :: ops | none => ops))

/-- `mapDoc(map, doc)` on the engine state: the map function runs first
(appending to the buffer), then the buffer is read, then cleared, then the
batch is sent.  The buffer is *not* cleared when the map function or the
extraction throws.  `svc` abstracts `sSetDB.process`; it is only invoked
when at least one operation was extracted. -/
def mapDoc (cfg : EngineConfig) (svc : List EngineOp → Except String Unit)
    (map : MapFn) (doc : JSValue) (eng : Engine) :
    Except String (List Emission) × Engine :=
  let r := map doc
  let eng1 : Engine := { eng with emits := eng.emits ++ r.1 }
  if r.2 then (.error "map function threw", eng1)
  else
    match extractEmits cfg eng1.emits with
    | .error e => (.error e, eng1)
    | .ok (ret, ops) =>
      let eng2 : Engine := { eng1 with emits := [] }
      if ops.isEmpty then (.ok ret, eng2)
      else
        match svc ops with
        | .ok _ => (.ok ret, eng2)
        | .error e => (.error e, eng2)

/-- The loop of the `map_doc` command: run every registered function on the
document, in order, collecting one emission list per function; the first
exception aborts the command (and becomes a `processing_failed` response). -/
def runMapFns (cfg : EngineConfig) (svc : List EngineOp → Except String Unit)
    (doc : JSValue) : List MapFn → Engine → Except String (List (List Emission)) × Engine
  | [], eng => (.ok [], eng)
  | fn :: rest, eng =>
    match mapDoc cfg svc fn doc eng with
    | (.error e, eng') => (.error e, eng')
    | (.ok ret, eng') =>
      match runMapFns cfg svc doc rest eng' with
      | (.error e, eng'') => (.error e, eng'')
      | (.ok rets, eng'') => (.ok (ret :: rets), eng'')

/-- The `map_doc` command body. -/
def mapDocCommand (cfg : EngineConfig) (svc : List EngineOp → Except String Unit)
    (doc : JSValue) (eng : Engine) : Except String (List (List Emission)) × Engine :=
  runMapFns cfg svc doc eng.mapFunctions eng

/-- The `reset` command: replaces the state object and discards the
registered functions.  The scratch buffer is not touched. -/
def resetEngine (eng : Engine) (newState : JSValue) : Engine :=
  { eng with
    mapFunctions := []
    qsState := if truthy newState ∧ jsTypeofObject newState = true then newState else .obj [] }

/-- Whether the value is `null`/`undefined`. -/
def JSValue.isNull : JSValue → Bool
  | .null => true
  | _ => false

/-!
## Theorems
-/

/-- C1.  The batch writer does issue one multi per distinct database, but
each multi is built from the whole batch: with the two-database batch
`[{db:'A', …}, {db:'B', …}]` both transactions contain both operations, so
database B's transaction carries database A's write (and vice versa).  The
spec (and the dead `groups[db]` list the code builds and then ignores)
show per-database grouping was intended: the inner loop iterates `ops`
instead of `groups[db]`. -/
theorem c1_every_group_gets_all_ops :
    SSetRedis.process
        [⟨"A", "ALL_VALUES", ["x"], 1, "va"⟩, ⟨"B", "ALL_VALUES", ["y"], 2, "vb"⟩] =
      .ok [[.zAddGT "\x7bSSET:A\x7d/x" 1 "va", .zAddGT "\x7bSSET:B\x7d/y" 2 "vb"],
           [.zAddGT "\x7bSSET:A\x7d/x" 1 "va", .zAddGT "\x7bSSET:B\x7d/y" 2 "vb"]] := by
  rfl

/-- C2.  On a keys query for a key whose sorted set is empty, the
interceptor reads `result.rows[0].value` with `rows` empty and throws a
`TypeError` instead of returning a row with an unset value. -/
theorem c2_keys_query_crashes_on_empty :
    processKeysQuery (fun db id q => SSetRedis.rangeByIndex db id q emptyRedis)
        [[.str "$SSET", .str "Users", .str "u7"]] ⟨true, true⟩ =
      .error "TypeError: Cannot read properties of undefined (reading 'value')" := by
  rfl

/-- C3, counterexample.  An emission `[["$SSET","db","x"], {score:7,
value:"v"}]` — well-formed except for the missing `keep` — is *not*
diverted: no operation is queued and the record is passed through as a
normal view row, contradicting the claimed `ALL_VALUES` default. -/
theorem c3_counterexample :
    extractEmits ⟨false⟩
        [(.arr [.str "$SSET", .str "db", .str "x"], .obj [("score", .num 7), ("value", .str "v")])] =
      .ok ([(.arr [.str "$SSET", .str "db", .str "x"], .obj [("score", .num 7), ("value", .str "v")])],
           []) := by
  rfl

/-- C3, amended.  An emission whose key is `["$SSET", …]` of length ≥ 3 and
whose value is an object without a `keep` field is never diverted: `keep`
is not defaulted; the record contributes no sorted-set operation and is
passed through as a normal view row. -/
theorem c3_amended (cfg : EngineConfig) (d i0 : JSValue) (rest : List JSValue)
    (fields : List (String × JSValue)) (hkeep : fields.lookup "keep" = none) :
    extractEmit cfg (.arr (.str "$SSET" :: d :: i0 :: rest), .obj fields) = .ok (true, none) := by
  simp [extractEmit, jsGet, hkeep, strictEqStr, jsTypeofObject, JSValue.isStr, truthy,
    Nat.le_add_left]

/-- Witness for C3: the concrete no-`keep` emission of the counterexample
satisfies the amended statement. -/
theorem c3_witness :
    ([("score", JSValue.num 7), ("value", JSValue.str "v")].lookup "keep" = none) ∧
    extractEmit ⟨false⟩ (.arr [.str "$SSET", .str "db", .str "x"],
        .obj [("score", .num 7), ("value", .str "v")]) = .ok (true, none) :=
  ⟨rfl, c3_amended ⟨false⟩ (.str "db") (.str "x") [] _ rfl⟩

/-- C4, counterexample.  A `rangeByScore` call with `includeTotal` false
and no paging returns `paging.total` equal to the number of returned rows
(here 1), not `-1`. -/
theorem c4_counterexample :
    (SSetRedis.rangeByScore "d" ["x"] { min := 0, max := 10, includeTotal := false }
        (fun _ => [(5, "v")])).paging.total ≠ -1 := by
  decide

/-- C4, amended.  When no paging (neither `offset` nor `count`) is
requested, `paging.count` is `-1` and `paging.total` is the number of
returned rows, regardless of `includeTotal`; `paging.total` is `-1` exactly
when paging is requested and `includeTotal` is false. -/
theorem c4_amended (byScore : Bool) (db : String) (id : List String)
    (q : SSetRangeQuery) (st : RedisState) :
    ((q.offset.isSome || q.count.isSome) = false →
      (SSetRedis.rangeBy byScore db id q st).paging.count = -1 ∧
      (SSetRedis.rangeBy byScore db id q st).paging.total =
        ((SSetRedis.rangeBy byScore db id q st).rows.length : Int)) ∧
    ((q.offset.isSome || q.count.isSome) = true → q.includeTotal = false →
      (SSetRedis.rangeBy byScore db id q st).paging.total = -1) := by
  constructor
  · intro h
    simp [SSetRedis.rangeBy, h]
  · intro h ht
    simp [SSetRedis.rangeBy, h, ht]

/-- Witness for C4: a no-paging query and a paged `includeTotal:false`
query at concrete inputs. -/
theorem c4_witness :
    (SSetRedis.rangeBy true "d" ["x"] { min := 0, max := 10, includeTotal := false }
        (fun _ => [(5, "v")])).paging.count = -1 ∧
    (SSetRedis.rangeBy true "d" ["x"]
        { min := 0, max := 10, offset := some 0, includeTotal := false }
        (fun _ => [(5, "v")])).paging.total = -1 :=
  ⟨((c4_amended true "d" ["x"] _ _).1 (by decide)).1,
   (c4_amended true "d" ["x"] _ _).2 (by decide) (by decide)⟩

/-- C10.  A call of the global `emit(key, value)` helper whose key is
neither null/undefined, a string, a number, nor a value with a truthy
`length` (an array-like with non-zero length) appends nothing to the
scratch emission buffer. -/
theorem c10_emit_drops_invalid_keys (eng : Engine) (key value : JSValue)
    (hnull : key.isNull = false) (hstr : key.isStr = false) (hnum : key.isNum = false)
    (hlen : truthy (jsLengthVal key) = false) :
    emitPush eng key value = eng := by
  cases key with
  | null => simp [JSValue.isNull] at hnull
  | str s => simp [JSValue.isStr] at hstr
  | num n => simp [JSValue.isNum] at hnum
  | bool b => rfl
  | arr xs => simp [emitPush, jsEmit, hlen]
  | obj fields => simp [emitPush, jsEmit, hlen]

/-- Witness for C10: a boolean key is silently dropped. -/
theorem c10_witness :
    (JSValue.bool true).isNull = false ∧ (JSValue.bool true).isStr = false ∧
    (JSValue.bool true).isNum = false ∧ truthy (jsLengthVal (JSValue.bool true)) = false ∧
    emitPush ⟨[], [], .obj []⟩ (.bool true) (.str "v") = ⟨[], [], .obj []⟩ :=
  ⟨rfl, rfl, rfl, rfl, c10_emit_drops_invalid_keys ⟨[], [], .obj []⟩ (.bool true) (.str "v")
    rfl rfl rfl rfl⟩

/-- Mapping string wrappers back through the interceptor's string cast. -/
lemma map_asString_str (l : List String) : (l.map JSValue.str).map asString = l := by
  induction l with
  | nil => rfl
  | cons a t ih => simp [asString, ih]

/-- Mapping string wrappers through the join's string conversion. -/
lemma map_jsToStr_str (l : List String) : (l.map JSValue.str).map jsToStr = l := by
  induction l with
  | nil => rfl
  | cons a t ih => simp [jsToStr, ih]

/-- C6.  On a range query with `start_key = ["$SSET", db, …idPath, mn]` and
`end_key` the same prefix followed by `mx`, the interceptor calls
`rangeByScore(db, idPath, {min:mn, max:mx, offset:skip, count:limit,
order: descending?'desc':'asc', includeTotal, includeScores})` and mirrors
the service's `paging.offset` and `paging.total` into the response's
`offset` and `total_rows`. -/
theorem c6_range_query_mapping (svc : String → List String → SSetRangeQuery → SSetRangeResponse)
    (db : String) (idPath : List String) (mn mx : Int) (opts : QueryOptions)
    (skip limit : Option Int) (descending : Bool) :
    (let q : SSetRangeQuery := { min := mn, max := mx, offset := skip, count := limit, order := some (if descending then "desc" else "asc"), includeTotal := opts.withTotalRows, includeScores := some opts.withScores };
     processRangeQuery svc
        (.str "$SSET" :: .str db :: (idPath.map JSValue.str ++ [.num mn]))
        (.str "$SSET" :: .str db :: (idPath.map JSValue.str ++ [.num mx]))
        opts skip limit descending =
      { offset := (svc db idPath q).paging.offset, total_rows := (svc db idPath q).paging.total, rows := (svc db idPath q).rows.map (fun r => { id := "#SSET", key := String.intercalate "," ("#SSET" :: db :: idPath), value := r.value, score := r.score }) }) := by
  have hcs : (JSValue.str "$SSET" :: JSValue.str db :: (idPath.map JSValue.str ++ [JSValue.num mn]))
      = ((JSValue.str "$SSET" :: JSValue.str db :: idPath.map JSValue.str) ++ [JSValue.num mn]) := by
    simp
  have hce : (JSValue.str "$SSET" :: JSValue.str db :: (idPath.map JSValue.str ++ [JSValue.num mx]))
      = ((JSValue.str "$SSET" :: JSValue.str db :: idPath.map JSValue.str) ++ [JSValue.num mx]) := by
    simp
  have h1 : (JSValue.str "$SSET" :: JSValue.str db ::
      (idPath.map JSValue.str ++ [JSValue.num mn])).getD 1 JSValue.null = JSValue.str db := rfl
  have h2 : ((JSValue.str "$SSET" :: JSValue.str db ::
      (idPath.map JSValue.str ++ [JSValue.num mn])).drop 2).dropLast = idPath.map JSValue.str := by
    simp [List.dropLast_concat]
  have h3 : (JSValue.str "$SSET" :: JSValue.str db ::
      (idPath.map JSValue.str ++ [JSValue.num mn])).getLast? = some (JSValue.num mn) := by
    rw [hcs, List.getLast?_concat]
  have h4 : (JSValue.str "$SSET" :: JSValue.str db ::
      (idPath.map JSValue.str ++ [JSValue.num mx])).getLast? = some (JSValue.num mx) := by
    rw [hce, List.getLast?_concat]
  simp only [processRangeQuery, h1, h2, h3, h4, map_asString_str, map_jsToStr_str,
    Option.getD_some, asString, asNum]

/-- Strict comparison with a string literal characterized. -/
lemma strictEqStr_iff (v : JSValue) (l : String) : strictEqStr v l = true ↔ v = .str l := by
  cases v <;> simp [strictEqStr]

/-- Strict equality against a string value characterized. -/
lemma jsStrictEq_str_iff (s : String) (v : JSValue) :
    jsStrictEq (.str s) v = true ↔ v = .str s := by
  cases v <;> simp [jsStrictEq]
  exact eq_comm

/-- If the classifier's start-key checks pass (first element `"$SSET"`,
numeric last element, pairwise-equal prefix), the end key begins with
`"$SSET"` as well: the prefix loop covers index 0. -/
lemma range_end_marker (s e : JSValue)
    (hs : strictEqStr (jsIndex s 0) "$SSET" = true)
    (hn : (lastElemJS s).isNum = true)
    (hpre : prefixStrictEq s e ((jsLength s).getD 0) = true) :
    strictEqStr (jsIndex e 0) "$SSET" = true := by
  rw [strictEqStr_iff] at hs
  cases hjs : jsLength s with
  | none => simp [lastElemJS, hjs, JSValue.isNum] at hn
  | some n =>
    rw [hjs, Option.getD_some] at hpre
    have hlast : (jsIndex s (n - 1)).isNum = true := by
      simpa [lastElemJS, hjs] using hn
    cases s with
    | null => simp [jsLength, jsLengthVal] at hjs
    | bool b => simp [jsLength, jsLengthVal] at hjs
    | num m => simp [jsLength, jsLengthVal] at hjs
    | obj fs => simp [jsIndex, JSValue.isNum] at hlast
    | str t =>
      rw [jsIndex] at hlast
      split at hlast <;> simp [JSValue.isNum] at hlast
    | arr xs =>
      have hnlen : n = (xs.length : Int) := by
        simp [jsLength, jsLengthVal] at hjs
        omega
      have hin : 0 ≤ n - 1 ∧ n - 1 < (xs.length : Int) := by
        by_contra hcon
        rw [jsIndex, if_neg hcon] at hlast
        simp [JSValue.isNum] at hlast
      have hne1 : n - 1 ≠ 0 := by
        intro h0
        rw [h0, hs] at hlast
        simp [JSValue.isNum] at hlast
      have hmem : 0 ∈ List.range (n - 1).toNat := by
        rw [List.mem_range]
        omega
      have h0 := (List.all_eq_true.mp hpre) 0 hmem
      have h0' : jsStrictEq (jsIndex (JSValue.arr xs) 0) (jsIndex e 0) = true := by
        simpa using h0
      rw [hs, jsStrictEq_str_iff] at h0'
      rw [strictEqStr_iff, h0']

/-- C7, counterexample.  A request carrying a matching `keys` parameter
*and* a well-formed `$SSET` start/end pair satisfies every condition of the
claimed equivalence yet is classified as a keys query, because the
classifier checks `keys` first. -/
theorem c7_counterexample :
    specRangeQueryShape
        { keys := .arr [.arr [.str "$SSET", .str "DB", .str "X"]],
          start_key := .arr [.str "$SSET", .str "DB", .str "X", .num 1],
          end_key := .arr [.str "$SSET", .str "DB", .str "X", .num 2] } = true ∧
    getQueryType
        { keys := .arr [.arr [.str "$SSET", .str "DB", .str "X"]],
          start_key := .arr [.str "$SSET", .str "DB", .str "X", .num 1],
          end_key := .arr [.str "$SSET", .str "DB", .str "X", .num 2] } = some QueryType.keys ∧
    getQueryType
        { keys := .arr [.arr [.str "$SSET", .str "DB", .str "X"]],
          start_key := .arr [.str "$SSET", .str "DB", .str "X", .num 1],
          end_key := .arr [.str "$SSET", .str "DB", .str "X", .num 2] } ≠ some QueryType.range := by
  refine ⟨rfl, rfl, ?_⟩
  decide

/-- C7, amended.  A view request is classified as a range query if and only
if it satisfies the spec's range-query conditions (start and end key
present, both beginning with `"$SSET"`, equal length, numeric last
elements, pairwise-equal prefix) *and* it is not recognized as a keys query
— the classifier checks the `keys` parameter first. -/
theorem c7_amended (qs : ViewParams) :
    getQueryType qs = some QueryType.range ↔
      (specRangeQueryShape qs = true ∧ specKeysQueryShape qs = false) := by
  by_cases hk : (truthy qs.keys && truthy (jsIndex qs.keys 0) &&
      strictEqStr (jsIndex (jsIndex qs.keys 0) 0) "$SSET") = true
  · rw [getQueryType, if_pos hk]
    rw [specKeysQueryShape] at *
    simp [hk]
  · rw [getQueryType, if_neg hk]
    rw [specKeysQueryShape] at *
    simp only [Bool.not_eq_true] at hk
    simp only [hk, and_true]
    by_cases hc : (truthy (jsOr qs.start_key qs.startkey) &&
        strictEqStr (jsIndex (jsOr qs.start_key qs.startkey) 0) "$SSET" &&
        truthy (jsOr qs.end_key qs.endkey)) = true
    · rw [if_pos hc]
      obtain ⟨⟨hts, hsm⟩, hte⟩ := by simpa [Bool.and_eq_true] using hc
      by_cases hlen : jsLength (jsOr qs.start_key qs.startkey) = jsLength (jsOr qs.end_key qs.endkey)
      · rw [if_neg (by simpa using hlen)]
        by_cases hns : (lastElemJS (jsOr qs.start_key qs.startkey)).isNum = true
        · rw [if_neg (by simpa using hns)]
          by_cases hnf : (lastElemJS (jsOr qs.end_key qs.endkey)).isNum = true
          · rw [if_neg (by simpa using hnf)]
            by_cases hpre : prefixStrictEq (jsOr qs.start_key qs.startkey)
                (jsOr qs.end_key qs.endkey) ((jsLength (jsOr qs.start_key qs.startkey)).getD 0) = true
            · rw [if_pos hpre]
              have hem := range_end_marker _ _ hsm hns hpre
              have hpre2 : prefixStrictEq (jsOr qs.start_key qs.startkey)
                  (jsOr qs.end_key qs.endkey) ((jsLength (jsOr qs.end_key qs.endkey)).getD 0) = true := by
                rw [← hlen]
                exact hpre
              simp [specRangeQueryShape, hts, hte, hsm, hem, hlen, hns, hnf, hpre, hpre2]
            · rw [if_neg hpre]
              simp [specRangeQueryShape, hpre]
          · rw [if_pos (by simpa using hnf)]
            simp [specRangeQueryShape, hnf]
        · rw [if_pos (by simpa using hns)]
          simp [specRangeQueryShape, hns]
      · rw [if_pos (by simpa using hlen)]
        simp [specRangeQueryShape, hlen]
    · rw [if_neg hc]
      simp only [Bool.and_eq_true] at hc
      constructor
      · intro h
        exact absurd h (by simp)
      · intro h
        exfalso
        rw [specRangeQueryShape] at h
        simp only [Bool.and_eq_true] at h
        tauto

/-- Validation succeeds exactly on batches of well-formed operations. -/
lemma validateOps_ok_mem (ops : List (SSetOp String)) (hok : validateOps ops = .ok ())
    (op : SSetOp String) (hmem : op ∈ ops) : op.id ≠ [] ∧ op.keep ≠ "" := by
  induction ops with
  | nil => cases hmem
  | cons hd tl ih =>
    rw [validateOps] at hok
    by_cases hbad : (hd.id.isEmpty || hd.keep == "") = true
    · rw [if_pos hbad] at hok
      cases hok
    · rw [if_neg hbad] at hok
      simp only [Bool.or_eq_true, List.isEmpty_iff, beq_iff_eq, not_or] at hbad
      cases hmem with
      | head => exact hbad
      | tail _ hm => exact ih hok hm

/-- Well-formed batches pass validation. -/
lemma validateOps_ok (ops : List (SSetOp String))
    (h : ∀ op ∈ ops, op.id ≠ [] ∧ op.keep ≠ "") : validateOps ops = .ok () := by
  induction ops with
  | nil => rfl
  | cons hd tl ih =>
    have hhd := h hd (List.mem_cons_self hd tl)
    rw [validateOps, if_neg (by simp [hhd.1, hhd.2])]
    exact ih (fun op hm => h op (List.mem_cons_of_mem hd hm))

/-- A batch containing an unrecognized `keep` aborts multi building. -/
lemma buildMulti_error (ops : List (SSetOp String))
    (h : ∃ op ∈ ops, op.keep ≠ "ALL_VALUES" ∧ op.keep ≠ "LAST_VALUE") :
    ∃ e, buildMulti ops = .error e := by
  induction ops with
  | nil => obtain ⟨op, hmem, -⟩ := h; cases hmem
  | cons hd tl ih =>
    rw [buildMulti]
    by_cases h1 : hd.keep = "ALL_VALUES"
    · rw [if_pos (by simp [h1])]
      obtain ⟨op, hmem, hbad⟩ := h
      have hop : op ∈ tl := by
        cases hmem with
        | head => exact absurd h1 hbad.1
        | tail _ hm => exact hm
      obtain ⟨e, he⟩ := ih ⟨op, hop, hbad⟩
      exact ⟨e, by rw [he]; rfl⟩
    · rw [if_neg (by simp [h1])]
      by_cases h2 : hd.keep = "LAST_VALUE"
      · rw [if_pos (by simp [h2])]
        obtain ⟨op, hmem, hbad⟩ := h
        have hop : op ∈ tl := by
          cases hmem with
          | head => exact absurd h2 hbad.2
          | tail _ hm => exact hm
        obtain ⟨e, he⟩ := ih ⟨op, hop, hbad⟩
        exact ⟨e, by rw [he]; rfl⟩
      · rw [if_neg (by simp [h2])]
        exact ⟨_, rfl⟩

/-- The group fold never empties a non-empty accumulator. -/
lemma groupDbs_foldl_ne_nil (l : List (SSetOp String)) (acc : List String) (hacc : acc ≠ []) :
    l.foldl (fun a op => if a.contains op.db then a else a ++ [op.db]) acc ≠ [] := by
  induction l generalizing acc with
  | nil => exact hacc
  | cons hd tl ih =>
    rw [List.foldl_cons]
    by_cases hc : acc.contains hd.db
    · rw [if_pos hc]
      exact ih acc hacc
    · rw [if_neg hc]
      exact ih _ (by simp)

/-- A non-empty batch has at least one group. -/
lemma groupDbs_ne_nil (ops : List (SSetOp String)) (hne : ops ≠ []) : groupDbs ops ≠ [] := by
  cases ops with
  | nil => exact absurd rfl hne
  | cons hd tl =>
    rw [groupDbs, List.foldl_cons]
    exact groupDbs_foldl_ne_nil tl _ (by simp)

/-- C8.  A batch containing an operation with an empty id-path or a `keep`
other than `ALL_VALUES`/`LAST_VALUE` makes the whole `process` call fail
with a single error, and no transaction is executed: the backend state is
unchanged (multi commands are only queued client-side; the throw happens
before any `exec()`). -/
theorem c8_invalid_op_fails_batch (ops : List (SSetOp String)) (st : RedisState)
    (h : ∃ op ∈ ops, op.id = [] ∨ (op.keep ≠ "ALL_VALUES" ∧ op.keep ≠ "LAST_VALUE")) :
    (∃ msg, SSetRedis.process ops = .error msg) ∧ applyBatch ops st = st := by
  have herr : ∃ msg, SSetRedis.process ops = .error msg := by
    rw [SSetRedis.process]
    cases hval : validateOps ops with
    | error e => exact ⟨e, rfl⟩
    | ok u =>
      cases u
      obtain ⟨op, hmem, hbad⟩ := h
      have hvalid := validateOps_ok_mem ops hval op hmem
      have hkeepbad : op.keep ≠ "ALL_VALUES" ∧ op.keep ≠ "LAST_VALUE" := by
        cases hbad with
        | inl hid => exact absurd hid hvalid.1
        | inr hk => exact hk
      obtain ⟨e, he⟩ := buildMulti_error ops ⟨op, hmem, hkeepbad⟩
      have hne : ops ≠ [] := by
        intro hnil
        rw [hnil] at hmem
        cases hmem
      cases hg : groupDbs ops with
      | nil => exact absurd hg (groupDbs_ne_nil ops hne)
      | cons g gs =>
        refine ⟨e, ?_⟩
        rw [mapGroups, he]
        rfl
  refine ⟨herr, ?_⟩
  obtain ⟨msg, hm⟩ := herr
  rw [applyBatch, hm]

/-- Witness for C8: a batch with a `keep` of `"FOO"` fails and leaves the
(empty) backend untouched. -/
theorem c8_witness :
    (∃ op ∈ ([⟨"D", "FOO", ["x"], 1, "v"⟩] : List (SSetOp String)),
        op.id = [] ∨ (op.keep ≠ "ALL_VALUES" ∧ op.keep ≠ "LAST_VALUE")) ∧
    (∃ msg, SSetRedis.process ([⟨"D", "FOO", ["x"], 1, "v"⟩] : List (SSetOp String)) = .error msg) ∧
    applyBatch ([⟨"D", "FOO", ["x"], 1, "v"⟩] : List (SSetOp String)) emptyRedis = emptyRedis :=
  ⟨by decide, c8_invalid_op_fails_batch _ emptyRedis (by decide)⟩

/-- The per-operation transformer of a `LAST_VALUE` write:
`zAdd … GT` followed by `zRemRangeByRank 0 -2`. -/
def lastStep (s : SSet) (score : Int) (member : String) : SSet :=
  zRemRangeByRank (zAddGT s score member) 0 (-2)

/-- `lastStep` applied from an operation. -/
def stepOp (s : SSet) (op : SSetOp String) : SSet := lastStep s op.score op.value

/-- The command list `buildMulti` produces on an all-`LAST_VALUE` batch. -/
def txOf : List (SSetOp String) → List RedisCmd
  | [] => []
  | op :: rest =>
    RedisCmd.zAddGT (SSetRedis.key op.db op.id) op.score op.value ::
    RedisCmd.zRemRangeByRank (SSetRedis.key op.db op.id) 0 (-2) :: txOf rest

lemma setKey_apply_self (st : RedisState) (k : String) (s : SSet) : setKey st k s k = s := by
  simp [setKey]

lemma setKey_self_state (st : RedisState) (k : String) : setKey st k (st k) = st := by
  funext k'
  rw [setKey]
  split
  · next h => rw [h]
  · rfl

lemma setKey_setKey (st : RedisState) (k : String) (a b : SSet) :
    setKey (setKey st k a) k b = setKey st k b := by
  funext k'
  simp only [setKey]
  split <;> rfl

/-- Multi building succeeds on all-`LAST_VALUE` batches, producing the
`zAdd`/`zRemRangeByRank` pair per operation. -/
lemma buildMulti_lastValue (ops : List (SSetOp String))
    (h : ∀ op ∈ ops, op.keep = "LAST_VALUE") : buildMulti ops = .ok (txOf ops) := by
  induction ops with
  | nil => rfl
  | cons hd tl ih =>
    have hhd := h hd (List.mem_cons_self hd tl)
    rw [buildMulti, if_neg (by rw [hhd]; decide), if_pos (by rw [hhd]; decide),
      ih (fun op hm => h op (List.mem_cons_of_mem hd hm))]
    rfl

lemma groupDbs_foldl_const (l : List (SSetOp String)) (d : String)
    (h : ∀ op ∈ l, op.db = d) :
    l.foldl (fun a op => if a.contains op.db then a else a ++ [op.db]) [d] = [d] := by
  induction l with
  | nil => rfl
  | cons hd tl ih =>
    have hhd := h hd (List.mem_cons_self hd tl)
    rw [List.foldl_cons, if_pos (by rw [hhd]; simp)]
    exact ih (fun op hm => h op (List.mem_cons_of_mem hd hm))

/-- A single-database batch forms a single group. -/
lemma groupDbs_const (ops : List (SSetOp String)) (d : String) (hne : ops ≠ [])
    (h : ∀ op ∈ ops, op.db = d) : groupDbs ops = [d] := by
  cases ops with
  | nil => exact absurd rfl hne
  | cons hd tl =>
    have hhd := h hd (List.mem_cons_self hd tl)
    rw [groupDbs, List.foldl_cons]
    have hstart : (if ([] : List String).contains hd.db then ([] : List String)
        else [] ++ [hd.db]) = [d] := by
      rw [hhd]
      rfl
    rw [hstart]
    exact groupDbs_foldl_const tl d (fun op hm => h op (List.mem_cons_of_mem hd hm))

/-- A non-empty single-key `LAST_VALUE` batch commits as exactly one
transaction holding its `zAdd`/`zRem` pairs in submission order. -/
lemma process_lastValue (ops : List (SSetOp String)) (d : String) (i : List String)
    (hne : ops ≠ []) (hi : i ≠ [])
    (h : ∀ op ∈ ops, op.db = d ∧ op.id = i ∧ op.keep = "LAST_VALUE") :
    SSetRedis.process ops = .ok [txOf ops] := by
  have hval : validateOps ops = .ok () :=
    validateOps_ok ops (fun op hm =>
      ⟨by rw [(h op hm).2.1]; exact hi, by rw [(h op hm).2.2]; decide⟩)
  rw [SSetRedis.process, hval, groupDbs_const ops d hne (fun op hm => (h op hm).1),
    mapGroups, buildMulti_lastValue ops (fun op hm => (h op hm).2.2)]
  rfl

/-- Executing the transaction of a single-key batch updates exactly that
key, by the fold of the per-operation transformer. -/
lemma execCmds_txOf (ops : List (SSetOp String)) (d : String) (i : List String)
    (h : ∀ op ∈ ops, op.db = d ∧ op.id = i) :
    ∀ st : RedisState, execCmds (txOf ops) st =
      setKey st (SSetRedis.key d i) (ops.foldl stepOp (st (SSetRedis.key d i))) := by
  induction ops with
  | nil =>
    intro st
    rw [txOf]
    show st = _
    rw [List.foldl_nil, setKey_self_state]
  | cons hd tl ih =>
    intro st
    have hhd := h hd (List.mem_cons_self hd tl)
    have htl := fun op hm => h op (List.mem_cons_of_mem hd hm)
    rw [txOf, hhd.1, hhd.2, execCmds, List.foldl_cons, List.foldl_cons]
    have hstep : execCmd (execCmd st (RedisCmd.zAddGT (SSetRedis.key d i) hd.score hd.value))
        (RedisCmd.zRemRangeByRank (SSetRedis.key d i) 0 (-2)) =
        setKey st (SSetRedis.key d i) (stepOp (st (SSetRedis.key d i)) hd) := by
      show setKey (setKey st (SSetRedis.key d i) (zAddGT (st (SSetRedis.key d i)) hd.score hd.value))
          (SSetRedis.key d i)
          (zRemRangeByRank ((setKey st (SSetRedis.key d i)
            (zAddGT (st (SSetRedis.key d i)) hd.score hd.value)) (SSetRedis.key d i)) 0 (-2)) =
          setKey st (SSetRedis.key d i) (stepOp (st (SSetRedis.key d i)) hd)
      rw [setKey_apply_self, setKey_setKey]
      rfl
    rw [hstep]
    have hih := ih htl (setKey st (SSetRedis.key d i) (stepOp (st (SSetRedis.key d i)) hd))
    rw [execCmds] at hih
    rw [hih, setKey_apply_self, setKey_setKey, List.foldl_cons]

/-- Chaining single-key `LAST_VALUE` batches folds their concatenation. -/
lemma batchesFold_lastValue (d : String) (i : List String) (hi : i ≠ []) :
    ∀ (batches : List (List (SSetOp String))) (st : RedisState),
      (∀ b ∈ batches, ∀ op ∈ b, op.db = d ∧ op.id = i ∧ op.keep = "LAST_VALUE") →
      (batches.foldl (fun s b => applyBatch b s) st) (SSetRedis.key d i) =
        (batches.flatten).foldl stepOp (st (SSetRedis.key d i)) := by
  intro batches
  induction batches with
  | nil =>
    intro st _
    rfl
  | cons b rest ih =>
    intro st h
    have hb := h b (List.mem_cons_self b rest)
    have hrest := fun b' hm => h b' (List.mem_cons_of_mem b hm)
    rw [List.foldl_cons, List.flatten_cons, List.foldl_append]
    by_cases hbne : b = []
    · subst hbne
      have hab : applyBatch [] st = st := rfl
      rw [hab, ih st hrest]
      rfl
    · have hab : applyBatch b st =
          setKey st (SSetRedis.key d i) (b.foldl stepOp (st (SSetRedis.key d i))) := by
        rw [applyBatch, process_lastValue b d i hbne hi hb]
        show execCmds (txOf b) st = _
        exact execCmds_txOf b d i (fun op hm => ⟨(hb op hm).1, (hb op hm).2.1⟩) st
      rw [hab, ih _ hrest, setKey_apply_self]

lemma zRem_single (x : Int × String) : zRemRangeByRank [x] 0 (-2) = [x] := rfl

lemma zRem_pair (x y : Int × String) : zRemRangeByRank [x, y] 0 (-2) = [y] := rfl

lemma lastStep_empty (sc : Int) (v : String) : lastStep [] sc v = [(sc, v)] := rfl

/-- One `LAST_VALUE` step on a singleton set keeps exactly one entry: the
one with the larger score (ties by member order), and that entry is either
the incoming pair or the old one. -/
lemma lastStep_singleton (m : Int) (w : String) (sc : Int) (v : String) :
    ∃ v', lastStep [(m, w)] sc v = [(max m sc, v')] ∧
      ((v' = v ∧ max m sc = sc) ∨ (v' = w ∧ max m sc = m)) := by
  by_cases hvw : w = v
  · subst hvw
    have hf : List.find? (fun e => e.2 == w) [(m, w)] = some (m, w) := by
      simp [List.find?]
    by_cases hlt : m < sc
    · refine ⟨w, ?_, Or.inl ⟨rfl, max_eq_right hlt.le⟩⟩
      have hz : zAddGT [(m, w)] sc w = [(sc, w)] := by
        have h1 : zAddGT [(m, w)] sc w =
            insertEntry (sc, w) (List.filter (fun x => !(x.2 == w)) [(m, w)]) := by
          rw [zAddGT, hf]
          exact if_pos hlt
        have hfil : List.filter (fun x => !(x.2 == w)) [(m, w)] = [] := by
          simp [List.filter]
        rw [h1, hfil]
        rfl
      rw [lastStep, hz, max_eq_right hlt.le]
      exact zRem_single (sc, w)
    · refine ⟨w, ?_, Or.inr ⟨rfl, max_eq_left (not_lt.mp hlt)⟩⟩
      have hz : zAddGT [(m, w)] sc w = [(m, w)] := by
        rw [zAddGT, hf]
        exact if_neg hlt
      rw [lastStep, hz, max_eq_left (not_lt.mp hlt)]
      exact zRem_single (m, w)
  · have hbeq : (w == v) = false := beq_eq_false_iff_ne.mpr hvw
    have hf : List.find? (fun e => e.2 == v) [(m, w)] = none := by
      simp [List.find?, hbeq]
    rcases lt_trichotomy sc m with hlt | heq | hgt
    · refine ⟨w, ?_, Or.inr ⟨rfl, max_eq_left hlt.le⟩⟩
      have he : entryLt (sc, v) (m, w) = true := by
        simp [entryLt, hlt]
      have hz : zAddGT [(m, w)] sc v = [(sc, v), (m, w)] := by
        rw [zAddGT, hf]
        show insertEntry (sc, v) [(m, w)] = _
        rw [insertEntry, if_pos he]
      rw [lastStep, hz, max_eq_left hlt.le]
      exact zRem_pair (sc, v) (m, w)
    · subst heq
      by_cases hv : v < w
      · refine ⟨w, ?_, Or.inr ⟨rfl, max_self sc⟩⟩
        have he : entryLt (sc, v) (sc, w) = true := by
          simp [entryLt, hv]
        have hz : zAddGT [(sc, w)] sc v = [(sc, v), (sc, w)] := by
          rw [zAddGT, hf]
          show insertEntry (sc, v) [(sc, w)] = _
          rw [insertEntry, if_pos he]
        rw [lastStep, hz, max_self]
        exact zRem_pair (sc, v) (sc, w)
      · refine ⟨v, ?_, Or.inl ⟨rfl, max_self sc⟩⟩
        have he : entryLt (sc, v) (sc, w) = false := by
          simp [entryLt, hv]
        have hz : zAddGT [(sc, w)] sc v = [(sc, w), (sc, v)] := by
          rw [zAddGT, hf]
          show insertEntry (sc, v) [(sc, w)] = _
          rw [insertEntry, if_neg (by simp [he])]
          rfl
        rw [lastStep, hz, max_self]
        exact zRem_pair (sc, w) (sc, v)
    · refine ⟨v, ?_, Or.inl ⟨rfl, max_eq_right hgt.le⟩⟩
      have he : entryLt (sc, v) (m, w) = false := by
        rw [entryLt, decide_eq_false (not_lt.mpr hgt.le), Bool.false_or,
          beq_eq_false_iff_ne.mpr hgt.ne', Bool.false_and]
      have hz : zAddGT [(m, w)] sc v = [(m, w), (sc, v)] := by
        rw [zAddGT, hf]
        show insertEntry (sc, v) [(m, w)] = _
        rw [insertEntry, if_neg (by simp [he])]
        rfl
      rw [lastStep, hz, max_eq_right hgt.le]
      exact zRem_pair (m, w) (sc, v)

/-- Fold invariant for `LAST_VALUE` sequences starting from a singleton. -/
lemma lastFold_go (ops : List (SSetOp String)) :
    ∀ (m : Int) (v : String), ∃ m' v', ops.foldl stepOp [(m, v)] = [(m', v')] ∧ m ≤ m' ∧
      (∀ op ∈ ops, op.score ≤ m') ∧
      ((m' = m ∧ v' = v) ∨ (∃ op ∈ ops, op.score = m' ∧ op.value = v')) := by
  induction ops with
  | nil =>
    intro m v
    exact ⟨m, v, rfl, le_refl m, by simp, Or.inl ⟨rfl, rfl⟩⟩
  | cons op rest ih =>
    intro m v
    obtain ⟨v₁, hstep, hprov⟩ := lastStep_singleton m v op.score op.value
    obtain ⟨m', v', hfold, hle, hall, hpro⟩ := ih (max m op.score) v₁
    refine ⟨m', v', ?_, le_trans (le_max_left m op.score) hle, ?_, ?_⟩
    · rw [List.foldl_cons]
      show rest.foldl stepOp (lastStep [(m, v)] op.score op.value) = [(m', v')]
      rw [hstep]
      exact hfold
    · intro op' hm
      cases hm with
      | head => exact le_trans (le_max_right m op.score) hle
      | tail _ hmem => exact hall op' hmem
    · cases hpro with
      | inl hp =>
        cases hprov with
        | inl hq =>
          refine Or.inr ⟨op, List.mem_cons_self op rest, ?_, ?_⟩
          · rw [hp.1, hq.2]
          · rw [hp.2, hq.1]
        | inr hq =>
          refine Or.inl ⟨?_, ?_⟩
          · rw [hp.1, hq.2]
          · rw [hp.2, hq.1]
      | inr hp =>
        obtain ⟨op', hmem, hsc, hval⟩ := hp
        exact Or.inr ⟨op', List.mem_cons_of_mem op hmem, hsc, hval⟩

/-- C5.  For any sequence of `LAST_VALUE` operations on one sorted-set key
(grouped into `process` batches, starting from an empty backend), the
resulting set holds exactly one entry; its score is the maximum score
submitted for that key, and its member is a value that was submitted with
that maximal score. -/
theorem c5_last_value_invariant (batches : List (List (SSetOp String))) (d : String)
    (i : List String)
    (hops : ∀ b ∈ batches, ∀ op ∈ b, op.db = d ∧ op.id = i ∧ op.keep = "LAST_VALUE")
    (hi : i ≠ []) (hne : batches.flatten ≠ []) :
    ∃ m v, applyBatches batches (SSetRedis.key d i) = [(m, v)] ∧
      (∀ b ∈ batches, ∀ op ∈ b, op.score ≤ m) ∧
      (∃ b ∈ batches, ∃ op ∈ b, op.score = m ∧ op.value = v) := by
  have hfold : applyBatches batches (SSetRedis.key d i) =
      (batches.flatten).foldl stepOp [] :=
    batchesFold_lastValue d i hi batches emptyRedis hops
  cases hj : batches.flatten with
  | nil => exact absurd hj hne
  | cons op0 restJ =>
    have hop0 : op0 ∈ batches.flatten := by
      rw [hj]
      exact List.mem_cons_self op0 restJ
    have hfold2 : applyBatches batches (SSetRedis.key d i) = restJ.foldl stepOp [(op0.score, op0.value)] := by
      rw [hfold, hj, List.foldl_cons]
      rfl
    obtain ⟨m', v', hres, hle, hall, hpro⟩ := lastFold_go restJ op0.score op0.value
    refine ⟨m', v', by rw [hfold2, hres], ?_, ?_⟩
    · intro b hb op hop
      have hmemj : op ∈ batches.flatten := List.mem_flatten.mpr ⟨b, hb, hop⟩
      rw [hj] at hmemj
      cases hmemj with
      | head => exact hle
      | tail _ hmem => exact hall op hmem
    · have hprov : ∃ op ∈ batches.flatten, op.score = m' ∧ op.value = v' := by
        cases hpro with
        | inl hp => exact ⟨op0, hop0, hp.1.symm, hp.2.symm⟩
        | inr hp =>
          obtain ⟨op', hmem, hsc, hval⟩ := hp
          refine ⟨op', ?_, hsc, hval⟩
          rw [hj]
          exact List.mem_cons_of_mem op0 hmem
      obtain ⟨op', hmem, hsc, hval⟩ := hprov
      obtain ⟨b, hb, hbmem⟩ := List.mem_flatten.mp hmem
      exact ⟨b, hb, op', hbmem, hsc, hval⟩

/-- Witness for C5: the keep-last scenario (scores 1, 5 then 3, values
"old", "new", "stale" across two batches) retains exactly `("new", 5)`. -/
theorem c5_witness :
    (∃ m v, applyBatches
        [[⟨"Users", "LAST_VALUE", ["u7"], 1, "old"⟩, ⟨"Users", "LAST_VALUE", ["u7"], 5, "new"⟩],
         [⟨"Users", "LAST_VALUE", ["u7"], 3, "stale"⟩]] (SSetRedis.key "Users" ["u7"]) = [(m, v)] ∧
      (∀ b ∈ [[(⟨"Users", "LAST_VALUE", ["u7"], 1, "old"⟩ : SSetOp String), ⟨"Users", "LAST_VALUE", ["u7"], 5, "new"⟩],
              [⟨"Users", "LAST_VALUE", ["u7"], 3, "stale"⟩]], ∀ op ∈ b, op.score ≤ m) ∧
      (∃ b ∈ [[(⟨"Users", "LAST_VALUE", ["u7"], 1, "old"⟩ : SSetOp String), ⟨"Users", "LAST_VALUE", ["u7"], 5, "new"⟩],
              [⟨"Users", "LAST_VALUE", ["u7"], 3, "stale"⟩]], ∃ op ∈ b, op.score = m ∧ op.value = v)) ∧
    applyBatches
        [[⟨"Users", "LAST_VALUE", ["u7"], 1, "old"⟩, ⟨"Users", "LAST_VALUE", ["u7"], 5, "new"⟩],
         [⟨"Users", "LAST_VALUE", ["u7"], 3, "stale"⟩]] (SSetRedis.key "Users" ["u7"]) = [(5, "new")] :=
  ⟨c5_last_value_invariant _ "Users" ["u7"] (by decide) (by decide) (by decide), by decide⟩

/-- C9, counterexample.  The scratch buffer is not cleared before a run and
not cleared by `reset`: a map function that emits and then throws leaves
its emission in the buffer, and the next `map_doc` run (same function list,
different document, emitting nothing) returns that stale emission in its
response. -/
theorem c9_counterexample :
    (let fn : MapFn := fun d => match d with
      | .num 1 => ([(.arr [.str "k"], .str "v")], true)
      | _ => ([], false);
     let svc : List EngineOp → Except String Unit := fun _ => .ok ();
     let eng0 : Engine := ⟨[], [fn], .obj []⟩;
     let r1 := mapDocCommand ⟨false⟩ svc (.num 1) eng0;
     let r2 := mapDocCommand ⟨false⟩ svc (.num 2) r1.2;
     r1.1 = .error "map function threw" ∧
     r1.2.emits = [(.arr [.str "k"], .str "v")] ∧
     r2.1 = .ok [[(.arr [.str "k"], .str "v")]] ∧
     (resetEngine r1.2 .null).emits = [(.arr [.str "k"], .str "v")]) :=
  ⟨rfl, rfl, rfl, rfl⟩

/-- C9, amended.  The scratch buffer is drained at the *end* of a
successful map-function run, after being read: the run's response is built
from whatever the buffer held when the function returned (including
leftovers of an earlier run whose map function threw), the buffer is empty
afterwards, and `reset` does not touch the buffer. -/
theorem c9_amended (cfg : EngineConfig) (svc : List EngineOp → Except String Unit)
    (map : MapFn) (doc s : JSValue) (eng : Engine)
    (ems ret : List Emission) (ops : List EngineOp)
    (hmap : map doc = (ems, false))
    (hex : extractEmits cfg (eng.emits ++ ems) = .ok (ret, ops))
    (hsvc : svc ops = .ok ()) :
    ((mapDoc cfg svc map doc eng).2).emits = [] ∧
    (mapDoc cfg svc map doc eng).1 = .ok ret ∧
    (resetEngine eng s).emits = eng.emits := by
  have hrun : mapDoc cfg svc map doc eng = (.ok ret, { eng with emits := [] }) := by
    simp only [mapDoc, hmap]
    simp only [hex]
    by_cases hops : ops.isEmpty
    · rw [if_pos hops]
      simp
    · rw [if_neg hops, hsvc]
      simp
  rw [hrun]
  exact ⟨rfl, rfl, rfl⟩

/-- Witness for C9: running a non-throwing, non-emitting map function on an
engine whose buffer holds a leftover emission returns that emission and
drains the buffer. -/
theorem c9_witness :
    ((mapDoc ⟨false⟩ (fun _ => .ok ()) (fun _ => ([], false)) (.num 2)
        ⟨[(.arr [.str "k"], .str "v")], [], .obj []⟩).2).emits = [] ∧
    (mapDoc ⟨false⟩ (fun _ => .ok ()) (fun _ => ([], false)) (.num 2)
        ⟨[(.arr [.str "k"], .str "v")], [], .obj []⟩).1 =
      .ok [(.arr [.str "k"], .str "v")] ∧
    (resetEngine ⟨[(.arr [.str "k"], .str "v")], [], .obj []⟩ .null).emits =
      ([(.arr [.str "k"], .str "v")] : List Emission) :=
  c9_amended ⟨false⟩ (fun _ => .ok ()) (fun _ => ([], false)) (.num 2) .null
    ⟨[(.arr [.str "k"], .str "v")], [], .obj []⟩ [] [(.arr [.str "k"], .str "v")] []
    rfl rfl rfl

end SuperCouch
